import Mathlib

/-!
Verification development for the Bakken well analytics pipeline (src/app.py).

The pipeline's data tables are shallowly embedded as Lean lists of records;
pandas timestamps at day precision are embedded as a `Date` structure with
calendar-month arithmetic (`pd.DateOffset(months:=k)`) and a civil day count
(for `.dt.days` of timestamp differences).  Fallible coercions
(`pd.to_datetime(errors:='coerce')`, `pd.to_numeric(errors:='coerce')`)
return `Option` values.
-/

/-- A calendar date (pandas `Timestamp` at day precision). -/
structure Date where
  year : Nat
  month : Nat
  day : Nat
deriving DecidableEq

/-- Gregorian leap-year test. -/
def isLeap (y : Nat) : Bool :=
  decide ((y % 4 = 0 ∧ y % 100 ≠ 0) ∨ y % 400 = 0)

/-- Number of days in a month of a given year. -/
def daysInMonth (y m : Nat) : Nat :=
  if m = 2 then (if isLeap y then 29 else 28)
  else if m = 4 ∨ m = 6 ∨ m = 9 ∨ m = 11 then 30
  else 31

/-- Strict order on dates: lexicographic on (year, month, day).  This is the
order pandas timestamp comparison induces on valid calendar dates. -/
def dateLt (a b : Date) : Bool :=
  decide (a.year < b.year ∨ (a.year = b.year ∧
    (a.month < b.month ∨ (a.month = b.month ∧ a.day < b.day))))

/-- Non-strict order on dates (pandas `>=` / `<=` on timestamps). -/
def dateLe (a b : Date) : Bool :=
  dateLt a b || decide (a = b)

/-- `pd.DateOffset(months:=k)`: advance by `k` calendar months, keeping the
day-of-month (clamped to the target month's length when it would overflow). -/
def Date.addMonths (d : Date) (k : Nat) : Date :=
  let t := d.year * 12 + (d.month - 1) + k
  let y := t / 12
  let m := t % 12 + 1
  ⟨y, m, min d.day (daysInMonth y m)⟩

/-- Civil day count (days since 0000-03-01 era base, Gregorian calendar);
differences of `toDays` give the whole-day difference `.dt.days` of the
corresponding timestamp difference. -/
def Date.toDays (dt : Date) : Nat :=
  let y := if dt.month ≤ 2 then dt.year - 1 else dt.year
  let era := y / 400
  let yoe := y % 400
  let mp := if 2 < dt.month then dt.month - 3 else dt.month + 9
  let doy := (153 * mp + 2) / 5 + (dt.day - 1)
  let doe := yoe * 365 + yoe / 4 - yoe / 100 + doy
  era * 146097 + doe

/-- Linear month index of a date, used to reason about month arithmetic. -/
def monthIndex (d : Date) : Nat := d.year * 12 + (d.month - 1)

/-! ## String-to-value coercions (Record Normalizer)

`pd.to_datetime(s, errors:='coerce')` on ISO `YYYY-MM-DD` input and
`pd.to_numeric(s, errors:='coerce')` on integer-form input: a typed value on
well-formed input, null (`none`) on anything else, never an exception. -/

/-- Split a character list on a separator character. -/
def splitOnChar (c : Char) : List Char → List (List Char)
  | [] => [[]]
  | x :: xs =>
    let r := splitOnChar c xs
    if x = c then [] :: r
    else match r with
      | [] => [[x]]
      | y :: ys => (x :: y) :: ys

/-- Parse a non-empty all-digit character list as a natural number. -/
def digitsToNat (l : List Char) : Option Nat :=
  if l ≠ [] ∧ l.all (fun c => c.isDigit) then
    some (l.foldl (fun a c => a * 10 + (c.toNat - 48)) 0)
  else none

/-- Model of `pd.to_datetime(s, errors:='coerce')`: parse `YYYY-MM-DD`;
any string that is not a valid calendar date in that form becomes null. -/
def parseDateOpt (s : String) : Option Date :=
  match splitOnChar '-' s.data with
  | [ys, ms, ds] =>
    match digitsToNat ys, digitsToNat ms, digitsToNat ds with
    | some y, some m, some d =>
      if 1 ≤ m ∧ m ≤ 12 ∧ 1 ≤ d ∧ d ≤ daysInMonth y m then some ⟨y, m, d⟩
      else none
    | _, _, _ => none
  | _ => none

/-- Parse an optionally negated all-digit character list as an integer. -/
def parseIntChars : List Char → Option Int
  | '-' :: rest => (digitsToNat rest).map (fun n => -(n : Int))
  | l => (digitsToNat l).map (fun n => (n : Int))

/-- Model of `pd.to_numeric(x.astype(str).str.replace(',', ''), errors:='coerce')`:
strip every thousands separator, then parse; residual non-numeric content
becomes null. -/
def parseNumericOpt (s : String) : Option Int :=
  parseIntChars (s.data.filter (fun c => c ≠ ','))

/-! ## Web-harvest tables (fetch_scrape_and_process / clean_scraped_data)

A harvested table is a list of column names plus rows of raw string cells.
`fetch_scrape_and_process` concatenates the per-category tables it parsed; if
no category produced data it returns `pd.DataFrame()` — an empty frame with
no columns.  `clean_scraped_data` coerces the date and cumulative-volume
columns, deduplicates on full-row equality, and derives `Completion Year`;
reading a column that is absent raises a `KeyError`. -/

/-- A raw harvested table: column names and rows of raw string cells. -/
structure RawFrame where
  cols : List String
  rows : List (List String)
deriving DecidableEq

/-- `pd.DataFrame()`: the empty frame with no columns. -/
def emptyFrame : RawFrame := ⟨[], []⟩

/-- Final line of `fetch_scrape_and_process`: concatenate the per-category
frames (which share the harvested table's header schema); with no frames the
result is `pd.DataFrame()`, an empty frame with no columns. -/
def fetch_scrape_result (allData : List RawFrame) : RawFrame :=
  match allData with
  | [] => emptyFrame
  | f :: fs => ⟨f.cols, (f :: fs).foldl (fun acc g => acc ++ g.rows) []⟩

/-- A typed cell after coercion. -/
inductive Val where
  | vstr (s : String)
  | vnum (n : Option Int)
  | vdate (d : Option Date)
  | vnat (n : Option Nat)
deriving DecidableEq

/-- A cleaned harvested table: column names and rows of typed cells. -/
structure CleanFrame where
  cols : List String
  rows : List (List Val)
deriving DecidableEq

/-- `drop_duplicates` kernel: drop rows already seen, keeping first
occurrences in order. -/
def dropDupFrom {α : Type} [DecidableEq α] : List α → List α → List α
  | _, [] => []
  | seen, x :: xs =>
    if x ∈ seen then dropDupFrom seen xs
    else x :: dropDupFrom (x :: seen) xs

/-- `DataFrame.drop_duplicates()`: full-row-equality deduplication keeping the
first occurrence of each row, preserving order. -/
def dropDup {α : Type} [DecidableEq α] (l : List α) : List α :=
  dropDupFrom [] l

/-- Columns coerced to dates by `clean_scraped_data`. -/
def dateColNames : List String := ["Completion Date", "Last Prod Rpt Date"]

/-- Columns coerced to numerics by `clean_scraped_data`. -/
def numColNames : List String := ["Cum Oil", "Cum Water", "Cum Gas"]

/-- `clean_scraped_data`: coerce the date columns and numeric columns,
deduplicate on full-row equality, derive `Completion Year`.  Each column
assignment first reads the column; the first absent column raises a
`KeyError` (modelled as `Except.error`). -/
def clean_scraped_data (df : RawFrame) : Except String CleanFrame :=
  match (dateColNames ++ numColNames).find? (fun c => !(df.cols.contains c)) with
  | some c => .error ("KeyError: " ++ c)
  | none =>
    let typedRows := df.rows.map (fun row =>
      (df.cols.zip row).map (fun p =>
        if dateColNames.contains p.1 then Val.vdate (parseDateOpt p.2)
        else if numColNames.contains p.1 then Val.vnum (parseNumericOpt p.2)
        else Val.vstr p.2))
    let deduped := dropDup typedRows
    let cdIdx := df.cols.indexOf "Completion Date"
    let withYear := deduped.map (fun row =>
      row ++ [Val.vnat (match row.get? cdIdx with
        | some (Val.vdate (some d)) => some d.year
        | _ => none)])
    .ok ⟨df.cols ++ ["Completion Year"], withYear⟩

/-! ## Delimited-data pipeline (load_and_process_data)

Production rows and header rows as loaded from the pipe-delimited files; the
header's date columns are raw strings coerced inside `load_and_process_data`. -/

/-- One monthly production observation (a row of `monthly_production.csv`). -/
structure ProdRow where
  well_id : String
  year : Nat
  month : Nat
  production : Int
deriving DecidableEq

/-- `prod_df['date']`: first day of the row's (year, month). -/
def ProdRow.date (r : ProdRow) : Date := ⟨r.year, r.month, 1⟩

/-- One raw well-header row (a row of `well_header.csv`). -/
structure HeaderRaw where
  well_id : String
  county : String
  spud_date : String
  completion_date : String
deriving DecidableEq

/-- A processed header row after the date coercions and `cycle_time`. -/
structure HeaderRow where
  well_id : String
  county : String
  spud_date : Option Date
  completion_date : Option Date
  cycle_time : Option Int
deriving DecidableEq

/-- Header processing (lines 92–94): coerce `spud_date` and
`completion_date`; `cycle_time` is their difference in whole days, null if
either is null. -/
def processHeader (h : HeaderRaw) : HeaderRow :=
  let s := parseDateOpt h.spud_date
  let c := parseDateOpt h.completion_date
  ⟨h.well_id, h.county, s, c,
    match s, c with
    | some sd, some cd => some ((cd.toDays : Int) - (sd.toDays : Int))
    | _, _ => none⟩

/-- The production rows of one well, in original order (`groupby` grouping). -/
def wellRows (prod : List ProdRow) (w : String) : List ProdRow :=
  prod.filter (fun r => r.well_id == w)

/-- One step of the running maximum: keep the earlier row `r` unless the
later candidate strictly exceeds it. -/
def argmaxStep (r : ProdRow) : Option ProdRow → ProdRow
  | none => r
  | some m => if m.production > r.production then m else r

/-- `Series.idxmax` semantics over a group: the first row attaining the
maximum `production` (later ties do not replace the current maximum). -/
def argmaxRow : List ProdRow → Option ProdRow
  | [] => none
  | r :: rs => some (argmaxStep r (argmaxRow rs))

/-- `peak['start_date']` for one well: the date of its first
maximum-production row. -/
def peakStart (prod : List ProdRow) (w : String) : Option Date :=
  (argmaxRow (wellRows prod w)).map (fun r => r.date)

/-- `prod_with_peak`: every production row tagged with its well's
`start_date` and `end_date` (left merge with the peak table). -/
def prodWithPeak (prod : List ProdRow) : List (ProdRow × Option Date × Option Date) :=
  prod.map (fun p =>
    (p, peakStart prod p.well_id, (peakStart prod p.well_id).map (fun s => s.addMonths 3)))

/-- The `in_window` flag: `date >= start_date && date < end_date`; rows whose
well has no peak dates compare as false. -/
def inWindowRow : ProdRow × Option Date × Option Date → Bool
  | (p, some s, some e) => dateLe s p.date && dateLt p.date e
  | _ => false

/-- `post_peak` joined back per well: the groupby-sum of `production` over
the in-window rows of well `w`, or `none` when `w` has no in-window row
(left-merge null). -/
def postPeakOpt (prod : List ProdRow) (w : String) : Option Int :=
  if (((prodWithPeak prod).filter inWindowRow).filter
      (fun x => x.1.well_id == w)).isEmpty then none
  else some ((((prodWithPeak prod).filter inWindowRow).filter
      (fun x => x.1.well_id == w)).foldl (fun a x => a + x.1.production) 0)

/-- Modelled from the spec (§4.5): the sum of `production` over the rows of
well `w` whose `date` lies in the half-open window `[s, e)`. -/
def specWindowSum (prod : List ProdRow) (w : String) (s e : Date) : Int :=
  ((wellRows prod w).filter (fun r => dateLe s r.date && dateLt r.date e)).foldl
    (fun a r => a + r.production) 0

/-- Inner join of production rows with processed header rows on `well_id`,
preserving production-row order (pandas `merge(..., how:='inner')`). -/
def innerMerge (prod : List ProdRow) (header : List HeaderRow) :
    List (ProdRow × HeaderRow) :=
  prod.flatMap (fun p =>
    (header.filter (fun h => h.well_id == p.well_id)).map (fun h => (p, h)))

/-- One row of the final merged analytic table.  The row's own monthly
production survives as the suffixed `production_x`; the per-well window sum
(the suffixed `production_y`) is renamed `post_peak_90_day`. -/
structure AnalyticRow where
  well_id : String
  year : Nat
  month : Nat
  production_x : Int
  date : Date
  county : String
  spud_date : Option Date
  completion_date : Option Date
  cycle_time : Option Int
  post_peak_90_day : Option Int
deriving DecidableEq

/-- `load_and_process_data` (lines 83–110): process the header, inner-join
production with the header on `well_id`, and left-join the per-well
post-peak window sum onto every surviving row. -/
def load_and_process_data (prod : List ProdRow) (headerRaw : List HeaderRaw) :
    List AnalyticRow :=
  let header := headerRaw.map processHeader
  (innerMerge prod header).map (fun ph =>
    ⟨ph.1.well_id, ph.1.year, ph.1.month, ph.1.production, ph.1.date,
     ph.2.county, ph.2.spud_date, ph.2.completion_date, ph.2.cycle_time,
     postPeakOpt prod ph.1.well_id⟩)

/-! ## Column-name model of the final merges

pandas `merge` keeps the key column once and suffixes non-key columns that
appear on both sides with `_x` (left) and `_y` (right). -/

/-- Column list produced by `pd.merge(left, right, on:=key)`. -/
def mergeCols (left right : List String) (key : String) : List String :=
  let rightNonKey := right.filter (fun c => c ≠ key)
  left.map (fun c => if c ≠ key ∧ rightNonKey.contains c then c ++ "_x" else c)
    ++ rightNonKey.map (fun c => if left.contains c then c ++ "_y" else c)

/-- Columns of `prod_df` after the `date` assignment. -/
def prodCols : List String := ["well_id", "year", "month", "production", "date"]

/-- Columns of `header_df` after the date processing and `cycle_time`. -/
def headerCols : List String :=
  ["well_id", "county", "spud_date", "completion_date", "cycle_time"]

/-- Columns of the final merged table: inner merge with the header, merge
with the `post_peak` series (named `production`), then rename
`production_y` to `post_peak_90_day`. -/
def finalCols : List String :=
  (mergeCols (mergeCols prodCols headerCols "well_id") ["well_id", "production"]
      "well_id").map
    (fun c => if c = "production_y" then "post_peak_90_day" else c)

/-! ## Helper lemmas: calendar arithmetic -/

theorem one_le_daysInMonth (y m : Nat) : 1 ≤ daysInMonth y m := by
  unfold daysInMonth
  split
  · split <;> omega
  · split <;> omega

theorem addMonths_day (d : Date) (k : Nat) (hd : d.day = 1) :
    (d.addMonths k).day = 1 := by
  unfold Date.addMonths
  simp only [hd]
  exact Nat.min_eq_left (one_le_daysInMonth _ _)

theorem addMonths_month_bounds (d : Date) (k : Nat) :
    1 ≤ (d.addMonths k).month ∧ (d.addMonths k).month ≤ 12 := by
  unfold Date.addMonths
  have h := Nat.mod_lt (d.year * 12 + (d.month - 1) + k) (show 0 < 12 by omega)
  constructor <;> (simp; try omega)

theorem monthIndex_addMonths (d : Date) (k : Nat) :
    monthIndex (d.addMonths k) = monthIndex d + k := by
  unfold Date.addMonths monthIndex
  have h := Nat.div_add_mod (d.year * 12 + (d.month - 1) + k) 12
  simp
  omega

theorem dateLt_iff_monthIndex (a b : Date) (ha1 : a.day = 1) (hb1 : b.day = 1)
    (ham : 1 ≤ a.month) (ham2 : a.month ≤ 12)
    (hbm : 1 ≤ b.month) (hbm2 : b.month ≤ 12) :
    dateLt a b = true ↔ monthIndex a < monthIndex b := by
  unfold dateLt monthIndex
  simp only [decide_eq_true_eq, ha1, hb1]
  omega

theorem monthIndex_inj (a b : Date) (ha1 : a.day = 1) (hb1 : b.day = 1)
    (ham : 1 ≤ a.month) (ham2 : a.month ≤ 12)
    (hbm : 1 ≤ b.month) (hbm2 : b.month ≤ 12)
    (h : monthIndex a = monthIndex b) : a = b := by
  obtain ⟨ya, ma, da⟩ := a
  obtain ⟨yb, mb, db⟩ := b
  unfold monthIndex at h
  simp only at h ha1 hb1 ham ham2 hbm hbm2
  simp only [Date.mk.injEq]
  omega

theorem dateLe_iff_monthIndex (a b : Date) (ha1 : a.day = 1) (hb1 : b.day = 1)
    (ham : 1 ≤ a.month) (ham2 : a.month ≤ 12)
    (hbm : 1 ≤ b.month) (hbm2 : b.month ≤ 12) :
    dateLe a b = true ↔ monthIndex a ≤ monthIndex b := by
  unfold dateLe
  rw [Bool.or_eq_true, decide_eq_true_iff]
  rw [dateLt_iff_monthIndex a b ha1 hb1 ham ham2 hbm hbm2]
  constructor
  · rintro (h | rfl) <;> omega
  · intro h
    rcases Nat.lt_or_ge (monthIndex a) (monthIndex b) with hlt | hge
    · exact Or.inl hlt
    · exact Or.inr (monthIndex_inj a b ha1 hb1 ham ham2 hbm hbm2 (by omega))

theorem dateLe_refl (a : Date) : dateLe a a = true := by
  unfold dateLe
  simp

theorem dateLt_addMonths_pos (s : Date) (k : Nat) (hk : 0 < k) (hd : s.day = 1)
    (hm1 : 1 ≤ s.month) (hm2 : s.month ≤ 12) :
    dateLt s (s.addMonths k) = true := by
  rw [dateLt_iff_monthIndex s (s.addMonths k) hd (addMonths_day s k hd) hm1 hm2
    (addMonths_month_bounds s k).1 (addMonths_month_bounds s k).2]
  rw [monthIndex_addMonths]
  omega

/-! ## Helper lemmas: stable argmax -/

theorem argmaxRow_mem (l : List ProdRow) (m : ProdRow)
    (h : argmaxRow l = some m) : m ∈ l := by
  induction l with
  | nil => simp [argmaxRow] at h
  | cons r rs ih =>
    simp only [argmaxRow, Option.some.injEq] at h
    cases hrec : argmaxRow rs with
    | none =>
      rw [hrec] at h
      simp only [argmaxStep] at h
      simp [← h]
    | some mm =>
      rw [hrec] at h
      simp only [argmaxStep] at h
      split at h
      · exact List.mem_cons_of_mem r (ih (by rw [hrec, h]))
      · simp [← h]

theorem argmaxRow_spec (l : List ProdRow) (hne : l ≠ []) :
    ∃ i, ∃ h : i < l.length, argmaxRow l = some (l.get ⟨i, h⟩) ∧
      (∀ x ∈ l, x.production ≤ (l.get ⟨i, h⟩).production) ∧
      (∀ x ∈ l.take i, x.production < (l.get ⟨i, h⟩).production) := by
  induction l with
  | nil => exact absurd rfl hne
  | cons r rs ih =>
    cases rs with
    | nil =>
      refine ⟨0, by simp, by simp [argmaxRow, argmaxStep], ?_, by simp⟩
      intro x hx
      rcases List.mem_singleton.mp hx with rfl
      simp
    | cons b t =>
      obtain ⟨i, hi, heq, hmax, hstr⟩ := ih (by simp)
      by_cases hgt : r.production < ((b :: t).get ⟨i, hi⟩).production
      · refine ⟨i + 1, by simpa using Nat.succ_lt_succ hi, ?_, ?_, ?_⟩
        · show some (argmaxStep r (argmaxRow (b :: t))) = _
          rw [heq]
          simp only [argmaxStep]
          rw [if_pos hgt]
          rfl
        · intro x hx
          rcases List.mem_cons.mp hx with rfl | hx
          · exact le_of_lt hgt
          · simpa using hmax x hx
        · intro x hx
          rw [List.take_succ_cons] at hx
          rcases List.mem_cons.mp hx with rfl | hx
          · simpa using hgt
          · simpa using hstr x hx
      · refine ⟨0, by simp, ?_, ?_, by simp⟩
        · show some (argmaxStep r (argmaxRow (b :: t))) = _
          rw [heq]
          simp only [argmaxStep]
          rw [if_neg hgt]
          rfl
        · intro x hx
          rcases List.mem_cons.mp hx with rfl | hx
          · exact le_refl _
          · exact le_trans (hmax x hx) (not_lt.mp hgt)

theorem peakStart_shape (prod : List ProdRow) (w : String) (s : Date)
    (hs : peakStart prod w = some s) :
    ∃ rm ∈ wellRows prod w, rm.date = s := by
  unfold peakStart at hs
  rcases Option.map_eq_some'.mp hs with ⟨rm, hrm, hd⟩
  exact ⟨rm, argmaxRow_mem _ _ hrm, hd⟩

theorem mem_wellRows (prod : List ProdRow) (w : String) (r : ProdRow) :
    r ∈ wellRows prod w ↔ r ∈ prod ∧ r.well_id = w := by
  unfold wellRows
  simp [List.mem_filter]

/-! ## Helper lemmas: deduplication -/

theorem mem_dropDupFrom {α : Type} [DecidableEq α] (seen l : List α) (x : α)
    (hx : x ∈ dropDupFrom seen l) : x ∉ seen := by
  induction l generalizing seen with
  | nil => simp [dropDupFrom] at hx
  | cons a t ih =>
    by_cases ha : a ∈ seen
    · rw [dropDupFrom, if_pos ha] at hx
      exact ih seen hx
    · rw [dropDupFrom, if_neg ha] at hx
      rcases List.mem_cons.mp hx with rfl | hx
      · exact ha
      · intro hc
        exact ih (a :: seen) hx (List.mem_cons_of_mem a hc)

theorem nodup_dropDupFrom {α : Type} [DecidableEq α] (seen l : List α) :
    (dropDupFrom seen l).Nodup := by
  induction l generalizing seen with
  | nil => simp [dropDupFrom]
  | cons a t ih =>
    by_cases ha : a ∈ seen
    · rw [dropDupFrom, if_pos ha]
      exact ih seen
    · rw [dropDupFrom, if_neg ha]
      refine List.nodup_cons.mpr ⟨?_, ih (a :: seen)⟩
      intro hmem
      exact mem_dropDupFrom (a :: seen) t a hmem (List.mem_cons_self a seen)

theorem dropDupFrom_eq_self {α : Type} [DecidableEq α] (seen l : List α)
    (hnd : l.Nodup) (hdis : ∀ x ∈ l, x ∉ seen) : dropDupFrom seen l = l := by
  induction l generalizing seen with
  | nil => rfl
  | cons a t ih =>
    rcases List.nodup_cons.mp hnd with ⟨hat, hndt⟩
    have ha : a ∉ seen := hdis a (List.mem_cons_self a t)
    rw [dropDupFrom, if_neg ha]
    refine congrArg (a :: ·) (ih (a :: seen) hndt ?_)
    intro x hx hc
    rcases List.mem_cons.mp hc with rfl | hc'
    · exact hat hx
    · exact hdis x (List.mem_cons_of_mem a hx) hc'

theorem dropDup_idem {α : Type} [DecidableEq α] (l : List α) :
    dropDup (dropDup l) = dropDup l :=
  dropDupFrom_eq_self [] (dropDupFrom [] l) (nodup_dropDupFrom [] l)
    (fun x _ => List.not_mem_nil x)

/-! ## Helper lemmas: the post-peak window sum -/

theorem filter_window_chain (prod l : List ProdRow) (w : String) (s : Date)
    (hs : peakStart prod w = some s) :
    ((l.map (fun p => (p, peakStart prod p.well_id,
        (peakStart prod p.well_id).map (fun u => u.addMonths 3)))).filter
          inWindowRow).filter (fun x => x.1.well_id == w)
      = ((l.filter (fun r => r.well_id == w)).filter
          (fun r => dateLe s r.date && dateLt r.date (s.addMonths 3))).map
          (fun r => (r, some s, some (s.addMonths 3))) := by
  induction l with
  | nil => rfl
  | cons p t ih =>
    simp only [List.map_cons, List.filter_cons]
    by_cases hw : p.well_id = w
    · have hps : peakStart prod p.well_id = some s := by rw [hw]; exact hs
      rw [hps]
      by_cases hwin : (dateLe s p.date && dateLt p.date (s.addMonths 3)) = true
      · simp [inWindowRow, hwin, hw, ih]
      · simp [inWindowRow, hwin, hw, ih]
    · have hbw : (p.well_id == w) = false := by
        exact beq_eq_false_iff_ne.mpr hw
      cases hc : inWindowRow (p, peakStart prod p.well_id,
          (peakStart prod p.well_id).map (fun u => u.addMonths 3)) with
      | true => simp [hc, hbw, ih]
      | false => simp [hc, hbw, ih]

theorem peakStart_day (prod : List ProdRow) (w : String) (s : Date)
    (hval : ∀ r ∈ prod, 1 ≤ r.month ∧ r.month ≤ 12)
    (hs : peakStart prod w = some s) :
    s.day = 1 ∧ 1 ≤ s.month ∧ s.month ≤ 12 := by
  obtain ⟨rm, hrm, hrd⟩ := peakStart_shape prod w s hs
  have hm := hval rm ((mem_wellRows prod w rm).mp hrm).1
  subst hrd
  exact ⟨rfl, hm.1, hm.2⟩

theorem postPeak_eq_specSum (prod : List ProdRow) (w : String) (s : Date)
    (hval : ∀ r ∈ prod, 1 ≤ r.month ∧ r.month ≤ 12)
    (hs : peakStart prod w = some s) :
    postPeakOpt prod w = some (specWindowSum prod w s (s.addMonths 3)) := by
  obtain ⟨rm, hrm, hrd⟩ := peakStart_shape prod w s hs
  obtain ⟨hsday, hsm1, hsm2⟩ := peakStart_day prod w s hval hs
  have hwin_rm : (dateLe s rm.date && dateLt rm.date (s.addMonths 3)) = true := by
    rw [hrd, Bool.and_eq_true]
    exact ⟨dateLe_refl s, dateLt_addMonths_pos s 3 (by omega) hsday hsm1 hsm2⟩
  have key := filter_window_chain prod prod w s hs
  unfold postPeakOpt prodWithPeak
  rw [key, show List.filter (fun r => r.well_id == w) prod = wellRows prod w
    from rfl]
  have hmem : rm ∈ (wellRows prod w).filter
      (fun r => dateLe s r.date && dateLt r.date (s.addMonths 3)) :=
    List.mem_filter.mpr ⟨hrm, hwin_rm⟩
  have hne2 : (((wellRows prod w).filter
      (fun r => dateLe s r.date && dateLt r.date (s.addMonths 3))).map
        (fun r => (r, some s, some (s.addMonths 3)))).isEmpty ≠ true := by
    intro hc
    rw [List.isEmpty_iff, List.map_eq_nil_iff] at hc
    rw [hc] at hmem
    exact List.not_mem_nil rm hmem
  rw [if_neg hne2]
  congr 1
  rw [List.foldl_map]
  rfl

/-! ## Helper lemmas: the inner join -/

theorem length_filter_not {α : Type} (l : List α) (p : α → Bool) :
    (l.filter p).length + (l.filter (fun a => !(p a))).length = l.length := by
  induction l with
  | nil => rfl
  | cons a t ih =>
    by_cases h : p a = true
    · simp [List.filter_cons, h, ← ih]
      omega
    · simp [List.filter_cons, h, Bool.not_eq_true _ ▸ h, ← ih]
      omega

theorem filter_wid_length (header : List HeaderRow) (wid : String)
    (huniq : (header.map (fun h => h.well_id)).Nodup) :
    (header.filter (fun h => h.well_id == wid)).length =
      (if header.any (fun h => h.well_id == wid) then 1 else 0) := by
  induction header with
  | nil => rfl
  | cons h t ih =>
    rcases List.nodup_cons.mp huniq with ⟨hnotin, hnd⟩
    by_cases he : h.well_id = wid
    · have htnil : t.filter (fun x => x.well_id == wid) = [] := by
        rw [List.filter_eq_nil_iff]
        intro a ha hc
        have haw : a.well_id = h.well_id := (beq_iff_eq.mp hc).trans he.symm
        refine hnotin ?_
        simp only [List.mem_map]
        exact ⟨a, ha, haw⟩
      simp [List.filter_cons, List.any_cons, he, htnil]
    · have hbe : (h.well_id == wid) = false := beq_eq_false_iff_ne.mpr he
      simp [List.filter_cons, List.any_cons, hbe, ih hnd]

theorem mem_innerMerge_iff (prod : List ProdRow) (header : List HeaderRow)
    (p : ProdRow) (h : HeaderRow) :
    (p, h) ∈ innerMerge prod header ↔
      p ∈ prod ∧ h ∈ header ∧ h.well_id = p.well_id := by
  unfold innerMerge
  simp only [List.mem_flatMap, List.mem_map, List.mem_filter, Prod.mk.injEq]
  constructor
  · rintro ⟨a, ha, hh, ⟨hhm, hhw⟩, rfl, rfl⟩
    exact ⟨ha, hhm, beq_iff_eq.mp hhw⟩
  · rintro ⟨hp, hh, hw⟩
    exact ⟨p, hp, h, ⟨hh, beq_iff_eq.mpr hw⟩, rfl, rfl⟩

theorem innerMerge_length (prod : List ProdRow) (header : List HeaderRow)
    (huniq : (header.map (fun h => h.well_id)).Nodup) :
    (innerMerge prod header).length =
      (prod.filter (fun p => header.any (fun h => h.well_id == p.well_id))).length := by
  induction prod with
  | nil => rfl
  | cons p t ih =>
    unfold innerMerge
    simp only [List.flatMap_cons, List.length_append, List.length_map]
    rw [filter_wid_length header p.well_id huniq]
    unfold innerMerge at ih
    rw [ih, List.filter_cons]
    by_cases hany : header.any (fun h => h.well_id == p.well_id) = true
    · simp [hany]
      omega
    · simp [hany]

/-! ## Helper lemmas: window membership and size -/

theorem window_date_mem (prod : List ProdRow) (w : String) (s : Date)
    (hval : ∀ r ∈ prod, 1 ≤ r.month ∧ r.month ≤ 12)
    (hs : peakStart prod w = some s)
    (r : ProdRow) (hr : r ∈ wellRows prod w)
    (hwin : (dateLe s r.date && dateLt r.date (s.addMonths 3)) = true) :
    r.date = s ∨ r.date = s.addMonths 1 ∨ r.date = s.addMonths 2 := by
  obtain ⟨hsday, hsm1, hsm2⟩ := peakStart_day prod w s hval hs
  have hrm := hval r ((mem_wellRows prod w r).mp hr).1
  have hrday : r.date.day = 1 := rfl
  have hrm1 : 1 ≤ r.date.month := hrm.1
  have hrm2 : r.date.month ≤ 12 := hrm.2
  rw [Bool.and_eq_true] at hwin
  have h1 := (dateLe_iff_monthIndex s r.date hsday hrday hsm1 hsm2 hrm1 hrm2).mp
    hwin.1
  have h2 := (dateLt_iff_monthIndex r.date (s.addMonths 3) hrday
    (addMonths_day s 3 hsday) hrm1 hrm2
    (addMonths_month_bounds s 3).1 (addMonths_month_bounds s 3).2).mp hwin.2
  rw [monthIndex_addMonths] at h2
  have hcase : monthIndex r.date = monthIndex s ∨
      monthIndex r.date = monthIndex s + 1 ∨
      monthIndex r.date = monthIndex s + 2 := by omega
  rcases hcase with h | h | h
  · exact Or.inl (monthIndex_inj r.date s hrday hsday hrm1 hrm2 hsm1 hsm2 h)
  · refine Or.inr (Or.inl (monthIndex_inj r.date (s.addMonths 1) hrday
      (addMonths_day s 1 hsday) hrm1 hrm2 (addMonths_month_bounds s 1).1
      (addMonths_month_bounds s 1).2 ?_))
    rw [monthIndex_addMonths]
    omega
  · refine Or.inr (Or.inr (monthIndex_inj r.date (s.addMonths 2) hrday
      (addMonths_day s 2 hsday) hrm1 hrm2 (addMonths_month_bounds s 2).1
      (addMonths_month_bounds s 2).2 ?_))
    rw [monthIndex_addMonths]
    omega

theorem window_count_le (prod : List ProdRow) (w : String) (s : Date)
    (hval : ∀ r ∈ prod, 1 ≤ r.month ∧ r.month ≤ 12)
    (hs : peakStart prod w = some s)
    (hnd : (prod.map (fun r => (r.well_id, r.year, r.month))).Nodup) :
    ((wellRows prod w).filter
        (fun r => dateLe s r.date && dateLt r.date (s.addMonths 3))).length ≤ 3 := by
  set F := (wellRows prod w).filter
    (fun r => dateLe s r.date && dateLt r.date (s.addMonths 3)) with hF
  have hsubl : List.Sublist F prod :=
    (List.filter_sublist _).trans (List.filter_sublist _)
  have hndkey : (F.map (fun r => (r.well_id, r.year, r.month))).Nodup :=
    hnd.sublist (hsubl.map _)
  have hndF : F.Nodup := List.Nodup.of_map _ hndkey
  have hinj : ∀ x ∈ F, ∀ y ∈ F, x.date = y.date → x = y := by
    intro x hx y hy hdate
    have hxw : x.well_id = w := ((mem_wellRows prod w x).mp (List.mem_of_mem_filter hx)).2
    have hyw : y.well_id = w := ((mem_wellRows prod w y).mp (List.mem_of_mem_filter hy)).2
    have hy2 : x.year = y.year := congrArg Date.year hdate
    have hm2 : x.month = y.month := congrArg Date.month hdate
    have hkey : (x.well_id, x.year, x.month) = (y.well_id, y.year, y.month) := by
      rw [hxw, hyw, hy2, hm2]
    exact List.inj_on_of_nodup_map hndkey hx hy hkey
  have hnddates : (F.map (fun r => r.date)).Nodup := hndF.map_on hinj
  have hsub : (F.map (fun r => r.date)) ⊆ [s, s.addMonths 1, s.addMonths 2] := by
    intro d hd
    rw [List.mem_map] at hd
    obtain ⟨r, hrF, rfl⟩ := hd
    have hr := List.mem_of_mem_filter hrF
    have hwin := List.of_mem_filter hrF
    rcases window_date_mem prod w s hval hs r hr hwin with h | h | h <;> simp [h]
  have hle := (List.subperm_of_subset hnddates hsub).length_le
  simpa using hle

/-! ## Concrete scenario data -/

/-- Production rows of the end-to-end scenario (§8 of the spec). -/
def prodC3 : List ProdRow :=
  [⟨"W1", 2020, 1, 100⟩, ⟨"W1", 2020, 2, 500⟩, ⟨"W1", 2020, 3, 200⟩,
   ⟨"W1", 2020, 4, 50⟩, ⟨"W1", 2020, 5, 10⟩]

/-- Header row of the end-to-end scenario. -/
def hdrC3 : List HeaderRaw := [⟨"W1", "CountyA", "2020-01-01", "2020-03-01"⟩]

/-- A two-well production input whose second well has no header row. -/
def prodC4 : List ProdRow := [⟨"W1", 2020, 1, 100⟩, ⟨"W2", 2020, 1, 50⟩]

/-- A tie input: two rows with equal maximal production. -/
def prodTie : List ProdRow := [⟨"W1", 2020, 1, 7⟩, ⟨"W1", 2020, 2, 7⟩]

/-! ## Claim theorems -/

/-- C1: for every well with at least one production row (months being valid
calendar months, which the pipeline's timestamp construction enforces), the
computed post-peak value equals the sum of that well's production over all
rows whose date lies in `[start_date, start_date + 3 calendar months)` with
inclusive lower and exclusive upper bound; the month offset is calendar
arithmetic (2019-01-01 ↦ 2019-04-01), and the start month is included. -/
theorem claim_C1_post_peak_window_sum (prod : List ProdRow) (w : String)
    (hval : ∀ r ∈ prod, 1 ≤ r.month ∧ r.month ≤ 12)
    (hne : wellRows prod w ≠ []) :
    ∃ s : Date, peakStart prod w = some s ∧
      postPeakOpt prod w = some (specWindowSum prod w s (s.addMonths 3)) ∧
      Date.addMonths ⟨2019, 1, 1⟩ 3 = ⟨2019, 4, 1⟩ := by
  obtain ⟨i, hlt, heq, _, _⟩ := argmaxRow_spec (wellRows prod w) hne
  have hpk : peakStart prod w = some (((wellRows prod w).get ⟨i, hlt⟩).date) := by
    simp [peakStart, heq]
  exact ⟨_, hpk, postPeak_eq_specSum prod w _ hval hpk, by decide⟩

/-- Witness for C1 at the end-to-end scenario data. -/
theorem claim_C1_witness :
    ∃ s : Date, peakStart prodC3 "W1" = some s ∧
      postPeakOpt prodC3 "W1" = some (specWindowSum prodC3 "W1" s (s.addMonths 3)) ∧
      Date.addMonths ⟨2019, 1, 1⟩ 3 = ⟨2019, 4, 1⟩ :=
  claim_C1_post_peak_window_sum prodC3 "W1" (by decide) (by decide)

/-- C2: the computed `start_date` is the date of a row whose production is
maximal in the well's series, and it is the earliest such row in the input's
original order: every row strictly before the selected one has strictly
smaller production (stable argmax). -/
theorem claim_C2_stable_argmax (prod : List ProdRow) (w : String)
    (hne : wellRows prod w ≠ []) :
    ∃ i, ∃ h : i < (wellRows prod w).length,
      peakStart prod w = some (((wellRows prod w).get ⟨i, h⟩).date) ∧
      (∀ x ∈ wellRows prod w,
        x.production ≤ ((wellRows prod w).get ⟨i, h⟩).production) ∧
      (∀ x ∈ (wellRows prod w).take i,
        x.production < ((wellRows prod w).get ⟨i, h⟩).production) := by
  obtain ⟨i, h, heq, hmax, hstr⟩ := argmaxRow_spec (wellRows prod w) hne
  refine ⟨i, h, ?_, hmax, hstr⟩
  simp [peakStart, heq]

/-- Witness for C2 at a tied input (both rows have production 7). -/
theorem claim_C2_witness :
    ∃ i, ∃ h : i < (wellRows prodTie "W1").length,
      peakStart prodTie "W1" = some (((wellRows prodTie "W1").get ⟨i, h⟩).date) ∧
      (∀ x ∈ wellRows prodTie "W1",
        x.production ≤ ((wellRows prodTie "W1").get ⟨i, h⟩).production) ∧
      (∀ x ∈ (wellRows prodTie "W1").take i,
        x.production < ((wellRows prodTie "W1").get ⟨i, h⟩).production) :=
  claim_C2_stable_argmax prodTie "W1" (by decide)

/-- C3: the end-to-end scenario: cycle_time 60 days, peak 2020-02-01, window
end 2020-05-01, post-peak sum 750, and a merged output of exactly 5 rows for
W1 each carrying post_peak_90_day 750. -/
theorem claim_C3_end_to_end :
    (processHeader ⟨"W1", "CountyA", "2020-01-01", "2020-03-01"⟩).cycle_time
        = some 60 ∧
    peakStart prodC3 "W1" = some ⟨2020, 2, 1⟩ ∧
    (peakStart prodC3 "W1").map (fun s => s.addMonths 3) = some ⟨2020, 5, 1⟩ ∧
    postPeakOpt prodC3 "W1" = some 750 ∧
    (load_and_process_data prodC3 hdrC3).length = 5 ∧
    (load_and_process_data prodC3 hdrC3).all
      (fun row => row.well_id == "W1" && row.post_peak_90_day == some 750)
        = true := by
  decide

theorem processHeader_any (l : List HeaderRaw) (wid : String) :
    ((l.map processHeader).any (fun h => h.well_id == wid))
      = l.any (fun h => h.well_id == wid) := by
  induction l with
  | nil => rfl
  | cons a t ih =>
    simp [List.any_cons, ih]
    rfl

/-- C4: with the header table's well identifiers unique (the WellHeader data
model invariant), the inner join drops exactly the production rows with no
matching header row: the merged row count is the production count minus the
unmatched count, every merged row's well has a header row, and every matched
production row survives into the merged output. -/
theorem claim_C4_inner_join (prod : List ProdRow) (headerRaw : List HeaderRaw)
    (huniq : (headerRaw.map (fun h => h.well_id)).Nodup) :
    (load_and_process_data prod headerRaw).length =
        prod.length - (prod.filter (fun p =>
          !(headerRaw.any (fun h => h.well_id == p.well_id)))).length ∧
    (∀ row ∈ load_and_process_data prod headerRaw,
      headerRaw.any (fun h => h.well_id == row.well_id) = true) ∧
    (∀ p ∈ prod, headerRaw.any (fun h => h.well_id == p.well_id) = true →
      ∃ row ∈ load_and_process_data prod headerRaw,
        row.well_id = p.well_id ∧ row.year = p.year ∧ row.month = p.month ∧
          row.production_x = p.production) := by
  have hwid : (headerRaw.map processHeader).map (fun h => h.well_id)
      = headerRaw.map (fun h => h.well_id) := by
    rw [List.map_map]
    rfl
  have hany : ∀ wid : String,
      ((headerRaw.map processHeader).any (fun h => h.well_id == wid))
        = headerRaw.any (fun h => h.well_id == wid) :=
    fun wid => processHeader_any headerRaw wid
  refine ⟨?_, ?_, ?_⟩
  · have hlen : (load_and_process_data prod headerRaw).length
        = (innerMerge prod (headerRaw.map processHeader)).length := by
      unfold load_and_process_data
      rw [List.length_map]
    rw [hlen, innerMerge_length prod _ (by rw [hwid]; exact huniq)]
    have hcomp := length_filter_not prod
      (fun p => headerRaw.any (fun h => h.well_id == p.well_id))
    have hfeq : prod.filter (fun p =>
          (headerRaw.map processHeader).any (fun h => h.well_id == p.well_id))
        = prod.filter (fun p => headerRaw.any (fun h => h.well_id == p.well_id)) := by
      apply List.filter_congr
      intro p _
      exact hany p.well_id
    rw [hfeq]
    omega
  · intro row hrow
    unfold load_and_process_data at hrow
    rw [List.mem_map] at hrow
    obtain ⟨⟨p, h⟩, hph, rfl⟩ := hrow
    obtain ⟨hp, hh, hw⟩ := (mem_innerMerge_iff prod _ p h).mp hph
    rw [List.mem_map] at hh
    obtain ⟨h0, hh0, rfl⟩ := hh
    rw [List.any_eq_true]
    exact ⟨h0, hh0, beq_iff_eq.mpr hw⟩
  · intro p hp hanyp
    rw [← hany p.well_id, List.any_eq_true] at hanyp
    obtain ⟨h, hh, hbeq⟩ := hanyp
    refine ⟨⟨p.well_id, p.year, p.month, p.production, p.date, h.county,
      h.spud_date, h.completion_date, h.cycle_time,
      postPeakOpt prod p.well_id⟩, ?_, rfl, rfl, rfl, rfl⟩
    unfold load_and_process_data
    rw [List.mem_map]
    exact ⟨(p, h), (mem_innerMerge_iff prod _ p h).mpr
      ⟨hp, hh, beq_iff_eq.mp hbeq⟩, rfl⟩

/-- Witness for C4: well W2 has no header row, so of the two production rows
exactly one survives the merge. -/
theorem claim_C4_witness :
    (load_and_process_data prodC4 hdrC3).length =
      prodC4.length - (prodC4.filter (fun p =>
        !(hdrC3.any (fun h => h.well_id == p.well_id)))).length :=
  (claim_C4_inner_join prodC4 hdrC3 (by decide)).1

/-- C5: `cycle_time` equals completion minus spud in whole days; it is null
whenever either coerced date is null (unparseable input included); it is not
clamped or sign-checked, so a completion before spud surfaces a negative
value (here −60). -/
theorem claim_C5_cycle_time :
    (∀ h : HeaderRaw, ∀ sd cd : Date,
      parseDateOpt h.spud_date = some sd →
      parseDateOpt h.completion_date = some cd →
      (processHeader h).cycle_time
        = some ((cd.toDays : Int) - (sd.toDays : Int))) ∧
    (∀ h : HeaderRaw,
      parseDateOpt h.spud_date = none ∨ parseDateOpt h.completion_date = none →
      (processHeader h).cycle_time = none) ∧
    (processHeader ⟨"W0", "c", "2020-03-01", "2020-01-01"⟩).cycle_time
      = some (-60) := by
  refine ⟨?_, ?_, by decide⟩
  · intro h sd cd hs hc
    unfold processHeader
    simp [hs, hc]
  · intro h hor
    unfold processHeader
    rcases hor with hn | hn
    · simp [hn]
    · cases hcs : parseDateOpt h.spud_date <;> simp [hn, hcs]

/-- Witness for C5: the scenario header gives 60 whole days. -/
theorem claim_C5_witness :
    (processHeader ⟨"W1", "CountyA", "2020-01-01", "2020-03-01"⟩).cycle_time
      = some ((Date.toDays ⟨2020, 3, 1⟩ : Int) - (Date.toDays ⟨2020, 1, 1⟩ : Int)) :=
  claim_C5_cycle_time.1 ⟨"W1", "CountyA", "2020-01-01", "2020-03-01"⟩
    ⟨2020, 1, 1⟩ ⟨2020, 3, 1⟩ (by decide) (by decide)

/-- C6: normalization of raw field strings is total — a typed value or null,
never an exception — with `"1,234"` ↦ 1234, `"N/A"` ↦ null, `""` ↦ null,
`"2020-05-14"` ↦ a valid date, and `"not a date"` ↦ null. -/
theorem claim_C6_normalization :
    parseNumericOpt "1,234" = some 1234 ∧ parseNumericOpt "N/A" = none ∧
    parseNumericOpt "" = none ∧
    parseDateOpt "2020-05-14" = some ⟨2020, 5, 14⟩ ∧
    parseDateOpt "not a date" = none ∧
    (∀ s : String, parseNumericOpt s = none ∨ ∃ n, parseNumericOpt s = some n) ∧
    (∀ s : String, parseDateOpt s = none ∨ ∃ d, parseDateOpt s = some d) := by
  refine ⟨by decide, by decide, by decide, by decide, by decide, ?_, ?_⟩
  · intro s
    cases h : parseNumericOpt s with
    | none => exact Or.inl rfl
    | some n => exact Or.inr ⟨n, rfl⟩
  · intro s
    cases h : parseDateOpt s with
    | none => exact Or.inl rfl
    | some d => exact Or.inr ⟨d, rfl⟩

/-- C7 — observed code behaviour at the claim's scenario: when no category
produced data the harvest result is the column-less empty frame, and
`clean_scraped_data` applied to it fails with a `KeyError` on its first
column access rather than treating the frame as "no data available". -/
theorem claim_C7_empty_harvest_clean_fails :
    fetch_scrape_result [] = emptyFrame ∧ emptyFrame.cols = [] ∧
    clean_scraped_data (fetch_scrape_result []) =
      Except.error "KeyError: Completion Date" :=
  ⟨rfl, rfl, rfl⟩

/-- C8: full-row-equality deduplication of the harvested rows is idempotent:
a second pass over an already deduplicated table changes nothing (same rows,
same order). -/
theorem claim_C8_dedup_idempotent :
    ∀ rows : List (List Val), dropDup (dropDup rows) = dropDup rows :=
  fun rows => dropDup_idem rows

/-- C9: after the final same-named-column merge, the `post_peak_90_day`
column (the renamed right-hand `production_y`) holds the per-well window
sum — never the row's own monthly production, which survives only under the
suffixed name `production_x`; no column named `production` remains. -/
theorem claim_C9_merge_columns (prod : List ProdRow)
    (headerRaw : List HeaderRaw) :
    ("production" ∉ finalCols ∧ "production_x" ∈ finalCols ∧
      "post_peak_90_day" ∈ finalCols ∧ "production_y" ∉ finalCols) ∧
    ∀ row ∈ load_and_process_data prod headerRaw,
      row.post_peak_90_day = postPeakOpt prod row.well_id := by
  refine ⟨by decide, ?_⟩
  intro row hrow
  unfold load_and_process_data at hrow
  rw [List.mem_map] at hrow
  obtain ⟨ph, _, rfl⟩ := hrow
  rfl

/-- Witness for C9: the first merged row of the end-to-end scenario carries
the per-well window sum. -/
theorem claim_C9_witness :
    (⟨"W1", 2020, 1, 100, ⟨2020, 1, 1⟩, "CountyA", some ⟨2020, 1, 1⟩,
        some ⟨2020, 3, 1⟩, some 60, some 750⟩ : AnalyticRow).post_peak_90_day
      = postPeakOpt prodC3 "W1" :=
  (claim_C9_merge_columns prodC3 hdrC3).2 _ (by decide)

/-- C10: every in-window production row's date equals the peak month or one
of the two immediately following calendar months, so the window covers at
most 3 distinct monthly dates; with unique (well, year, month) keys the
window aggregates at most 3 rows. -/
theorem claim_C10_window_three_months (prod : List ProdRow) (w : String)
    (s : Date)
    (hval : ∀ r ∈ prod, 1 ≤ r.month ∧ r.month ≤ 12)
    (hs : peakStart prod w = some s) :
    (∀ r ∈ wellRows prod w,
      (dateLe s r.date && dateLt r.date (s.addMonths 3)) = true →
      r.date = s ∨ r.date = s.addMonths 1 ∨ r.date = s.addMonths 2) ∧
    ((prod.map (fun r => (r.well_id, r.year, r.month))).Nodup →
      ((wellRows prod w).filter
        (fun r => dateLe s r.date && dateLt r.date (s.addMonths 3))).length ≤ 3) :=
  ⟨fun r hr hwin => window_date_mem prod w s hval hs r hr hwin,
    fun hnd => window_count_le prod w s hval hs hnd⟩

/-- Witness for C10 at the end-to-end scenario data (peak 2020-02-01). -/
theorem claim_C10_witness :
    (∀ r ∈ wellRows prodC3 "W1",
      (dateLe ⟨2020, 2, 1⟩ r.date &&
        dateLt r.date (Date.addMonths ⟨2020, 2, 1⟩ 3)) = true →
      r.date = ⟨2020, 2, 1⟩ ∨ r.date = Date.addMonths ⟨2020, 2, 1⟩ 1 ∨
        r.date = Date.addMonths ⟨2020, 2, 1⟩ 2) ∧
    ((prodC3.map (fun r => (r.well_id, r.year, r.month))).Nodup →
      ((wellRows prodC3 "W1").filter
        (fun r => dateLe ⟨2020, 2, 1⟩ r.date &&
          dateLt r.date (Date.addMonths ⟨2020, 2, 1⟩ 3))).length ≤ 3) :=
  claim_C10_window_three_months prodC3 "W1" ⟨2020, 2, 1⟩ (by decide) (by decide)
